import Mathlib

/-!
Verification development for the cartograph codebase-mapping plugin.

Shallow embedding conventions:
- File-system paths are represented as the list of their "/"-separated
  segments (`Path := List String`); a raw path string `"src/utils.ts"`
  is the segment list `["src", "utils.ts"]`.
- String inspection helpers (`lowerStr`, `startsWithDot`, `extname`,
  `splitSlash`) are implemented over the character list `String.data`
  so that all definitions reduce inside the kernel.
- JavaScript `Map` objects (which iterate in insertion order) are
  embedded as association lists that append fresh keys at the end.
- `Array.prototype.sort` with comparator `(a, b) => key(b) - key(a)`
  (a stable descending sort) is embedded as the stable insertion sort
  `sortByKeyDesc`.
- I/O effects (reading files, writing JSON, WebSocket broadcasts) are
  embedded as explicit state passing; clock values (timestamps, hashes)
  are passed in as arguments.
-/

namespace Cartograph

set_option maxRecDepth 1000000

/-- A repository-relative path, as the list of its "/"-separated segments. -/
abbrev Path := List String

/-- Lower-case a string character-by-character (embedding of `/pattern/i`
case-insensitive matching and of `String.prototype.toLowerCase`). -/
def lowerStr (s : String) : String :=
  String.mk (s.data.map Char.toLower)

/-- Does the string start with the given character (JS `s.startsWith(c)`
for a one-character needle)? -/
def strStartsWithChar (c : Char) (s : String) : Bool :=
  match s.data with
  | [] => false
  | x :: _ => x = c

/-- Does the string start with a dot (JS `s.startsWith(".")`)? -/
def startsWithDot (s : String) : Bool :=
  strStartsWithChar '.' s

/-- Does the string start with a slash (JS `s.startsWith("/")`)? -/
def startsWithSlash (s : String) : Bool :=
  strStartsWithChar '/' s

/-- Drop the first character of a string (used for the `"/index.ts"`
candidate suffixes, whose leading slash introduces a new path segment). -/
def strTail (s : String) : String :=
  String.mk s.data.tail

/-- Split a character list at every occurrence of `c`. -/
def splitCharList (c : Char) : List Char → List (List Char)
  | [] => [[]]
  | x :: xs =>
    let rest := splitCharList c xs
    if x = c then
      [] :: rest
    else
      match rest with
      | [] => [[x]]
      | r :: rs => (x :: r) :: rs

/-- Split a raw path string into its "/"-separated segments. -/
def splitSlash (s : String) : List String :=
  (splitCharList '/' s.data).map String.mk

/-- Embedding of node's `path.extname`: the suffix of the file name from its
last dot, where a dot in first position (hidden files like `".gitignore"`)
does not count as an extension separator. -/
def extname (name : String) : String :=
  let parts := splitCharList '.' name.data
  match parts with
  | [] => ""
  | [_] => ""
  | first :: rest =>
    if first = [] ∧ rest.length = 1 then ""
    else "." ++ String.mk ((first :: rest).getLast (by simp))

/-- `path.extname` applied to a segment-list path: node computes the
extension of the base name, i.e. of the last segment. -/
def extnameOfPath (p : Path) : String :=
  extname (p.getLast?.getD "")

/-- Stable insertion step for a descending sort by a `Nat` key: the new
element is placed before the first strictly-smaller element, hence after
all earlier elements with an equal key (JS sort stability). -/
def insertByKeyDesc (key : α → Nat) (x : α) : List α → List α
  | [] => [x]
  | y :: ys => if key y ≤ key x then x :: y :: ys else y :: insertByKeyDesc key x ys

/-- Embedding of the stable JS `array.sort((a, b) => key(b) - key(a))`. -/
def sortByKeyDesc (key : α → Nat) : List α → List α
  | [] => []
  | x :: xs => insertByKeyDesc key x (sortByKeyDesc key xs)

/-! ### Worker analyzer (`src/worker/analyzer.worker.ts`)

The worker receives `{ workspaceDir, files? }` messages, collects or receives
the target paths, lexically analyzes each file and answers with an
`AnalyzeResult`.  The per-file regex scan over the file's text is pure and
identical in both full and incremental modes, so the embedding carries each
file's scan result (`Content`) in the file-system tree and `analyzeFile`
assembles the `FileInfo` exactly as the worker does. -/

/-- The raw regex-match lists extracted from one file's text
(`importMatches`, `exportMatches`, `funcMatches`, `classMatches`),
before the worker's `.filter(Boolean)`. -/
structure Content where
  imports : List String
  exports : List String
  functions : List String
  classes : List String
deriving DecidableEq, Inhabited

mutual

/-- A file-system entry: a file with its per-file scan content, or a
directory with its listing. -/
inductive FsTree where
  | file (name : String) (content : Content)
  | dir (name : String) (children : FsListing)

/-- A directory listing, in `readdir` order.  (A separate mutual inductive
rather than `List FsTree`, so that the functions below are structurally
recursive and evaluate inside the kernel.) -/
inductive FsListing where
  | nil
  | cons (entry : FsTree) (rest : FsListing)

end

/-- Build a listing from a list of entries. -/
def FsListing.ofList : List FsTree → FsListing
  | [] => .nil
  | e :: rest => .cons e (FsListing.ofList rest)

/-- `IGNORE_DIRS` from `analyzer.worker.ts`. -/
def IGNORE_DIRS : List String :=
  ["node_modules", ".git", ".architecture", "dist", "build",
   "__pycache__", ".next", ".venv", "venv", ".cache"]

/-- `EXTENSIONS` from `analyzer.worker.ts`: supported extension → language. -/
def EXTENSIONS : List (String × String) :=
  [(".ts", "typescript"), (".tsx", "tsx"), (".js", "javascript"),
   (".jsx", "jsx"), (".py", "python"), (".go", "go"), (".rs", "rust")]

/-- `EXTENSIONS[ext]` lookup. -/
def extLanguage? (ext : String) : Option String :=
  (EXTENSIONS.find? (fun p => p.1 = ext)).map (·.2)

/-- `LAYER_PATTERNS` from `analyzer.worker.ts`.  Each regex
`/\/(alt|…)\//i` matches iff some non-final path segment, lower-cased,
is one of the listed alternatives (the final segment is never followed
by a slash in `"/" + path`). -/
def LAYER_PATTERNS : List (List String × String) :=
  [(["api", "routes", "handlers", "controllers"], "api"),
   (["service", "services", "usecase", "usecases"], "service"),
   (["model", "models", "entities", "schema", "schemas", "type", "types"], "model"),
   (["util", "utils", "helper", "helpers", "lib"], "util"),
   (["component", "components", "view", "views", "page", "pages", "ui"], "ui"),
   (["config", "settings"], "config"),
   (["test", "tests", "__tests__", "spec"], "test")]

/-- `detectLayer` from `analyzer.worker.ts`: first matching pattern wins,
otherwise `"other"`. -/
def detectLayer (p : Path) : String :=
  match LAYER_PATTERNS.find?
      (fun pat => p.dropLast.any (fun seg => pat.1.contains (lowerStr seg))) with
  | some pat => pat.2
  | none => "other"

mutual

/-- The paths contributed by one directory entry in `collectFiles` from
`analyzer.worker.ts`: entries whose name starts with a dot or is in
`IGNORE_DIRS` are skipped (files and directories alike), directories are
recursed into, and files are kept when their extension is supported.
The source accumulates absolute paths and strips the base directory; the
embedding equivalently returns paths relative to the directory listed. -/
def collectEntry : FsTree → List Path
  | .file name _ =>
    if startsWithDot name || IGNORE_DIRS.contains name then []
    else if (extLanguage? (extname name)).isSome then [[name]] else []
  | .dir name children =>
    if startsWithDot name || IGNORE_DIRS.contains name then []
    else (collectFiles children).map (fun p => name :: p)

/-- `collectFiles` over a directory listing. -/
def collectFiles : FsListing → List Path
  | .nil => []
  | .cons e rest => collectEntry e ++ collectFiles rest

end

/-- Embedding of `readFile(join(workspaceDir, relativePath))` in
`analyzeFile`: resolve a relative path in the tree, with no exclusion or
extension checks (a name match commits the search to that entry, as
file-system names are unique within a directory). -/
def lookupFile : FsListing → Path → Option Content
  | .nil, _ => none
  | .cons _ _, [] => none
  | .cons (.file name c) rest, seg :: segs =>
    if name = seg then (if segs = [] then some c else none)
    else lookupFile rest (seg :: segs)
  | .cons (.dir name children) rest, seg :: segs =>
    if name = seg then (if segs = [] then none else lookupFile children segs)
    else lookupFile rest (seg :: segs)

/-- `FileInfo` from `analyzer.worker.ts` (the FileRecord of this pipeline). -/
structure FileInfo where
  path : Path
  language : String
  layer : String
  imports : List String
  exports : List String
  functions : List String
  classes : List String
deriving DecidableEq, Inhabited

/-- `analyzeFile` from `analyzer.worker.ts`: read the file (returning `null`
on failure), infer the language from the extension (`"unknown"` fallback),
classify the layer from the path, and keep the non-empty regex matches
(`.filter(Boolean)`). -/
def analyzeFile (fs : FsListing) (relativePath : Path) : Option FileInfo :=
  match lookupFile fs relativePath with
  | none => none
  | some content =>
    some { path := relativePath
           language := (extLanguage? (extnameOfPath relativePath)).getD "unknown"
           layer := detectLayer relativePath
           imports := content.imports.filter (· ≠ "")
           exports := content.exports.filter (· ≠ "")
           functions := content.functions.filter (· ≠ "")
           classes := content.classes.filter (· ≠ "") }

/-- `DomainInfo` from `analyzer.worker.ts`. -/
structure DomainInfo where
  name : String
  fileCount : Nat
  layer : String
deriving DecidableEq, Inhabited

/-- `skipDirs` from `detectDomains`. -/
def skipDirs : List String := ["src", "lib", "app", "internal", "pkg", "cmd"]

/-- The domain of a path in `detectDomains`: the first directory segment
(`parts.slice(0, -1)`) that is neither a scaffolding name nor
underscore-prefixed; `"root"` if none qualifies. -/
def domainOf (p : Path) : String :=
  (p.dropLast.find?
    (fun part => !(skipDirs.contains part) && !(strStartsWithChar '_' part))).getD "root"

/-- Append `f` to the group of key `k`, adding the key at the end when
fresh (JS `Map` insertion order with `array.push`). -/
def addToGroup (k : String) (f : FileInfo) :
    List (String × List FileInfo) → List (String × List FileInfo)
  | [] => [(k, [f])]
  | (k', fs) :: rest =>
    if k' = k then (k', fs ++ [f]) :: rest else (k', fs) :: addToGroup k f rest

/-- Bump the counter of key `k`, adding the key at the end when fresh. -/
def bumpCount (k : String) : List (String × Nat) → List (String × Nat)
  | [] => [(k, 1)]
  | (k', n) :: rest =>
    if k' = k then (k', n + 1) :: rest else (k', n) :: bumpCount k rest

/-- The dominant layer of a group in `detectDomains`: layer occurrence
counts in first-occurrence order, sorted descending (stable), first entry,
`"other"` fallback. -/
def topLayer (files : List FileInfo) : String :=
  match sortByKeyDesc (·.2) (files.foldl (fun m f => bumpCount f.layer m) []) with
  | [] => "other"
  | (l, _) :: _ => l

/-- `detectDomains` from `analyzer.worker.ts`: group files by domain,
drop groups with fewer than 2 members, compute file count and dominant
layer, sort by file count descending, keep the top 10. -/
def detectDomains (files : List FileInfo) : List DomainInfo :=
  let domainMap := files.foldl (fun m f => addToGroup (domainOf f.path) f m) []
  ((sortByKeyDesc (·.fileCount)
      ((domainMap.filter (fun g => 2 ≤ g.2.length)).map
        (fun g => ⟨g.1, g.2.length, topLayer g.2⟩))).take 10 : List DomainInfo)

/-- `AnalyzeResult` from `analyzer.worker.ts` (= `AnalysisResult` of the
plugin): the model published by one analysis pass. -/
structure AnalyzeResult where
  files : List FileInfo
  layers : List (String × Nat)
  domains : List DomainInfo
  timestamp : String
deriving DecidableEq, Inhabited

/-- The worker's `self.onmessage` pipeline: use the explicitly supplied
target files when present (incremental mode), otherwise collect the full
tree; analyze each path, skipping unreadable files; count layers; detect
domains.  The timestamp comes from the clock and is passed in. -/
def workerAnalyze (fs : FsListing) (targetFiles : Option (List Path))
    (ts : String) : AnalyzeResult :=
  let filePaths := targetFiles.getD (collectFiles fs)
  let files := filePaths.filterMap (analyzeFile fs)
  { files := files
    layers := files.foldl (fun m f => bumpCount f.layer m) []
    domains := detectDomains files
    timestamp := ts }

/-! ### Diagram records and the merge operation (`src/diagrams.ts`)

`DIAGRAM_TYPES` keys, `mapTypeToCategory`, `createDiagramRecord` and
`mergeDiagrams`, plus the plugin's `saveDiagrams` persistence step and the
`globalWorker.onmessage` handler from `src/index.ts` of the plugin. -/

/-- The keys of `DIAGRAM_TYPES`. -/
inductive DiagramType where
  | architecture | dataflow | sequence | cls | dependency | er | state
deriving DecidableEq, Inhabited

/-- The literal key string of a `DiagramType` (the constructor for the
source's `"class"` key is spelled `cls`, as `class` is reserved in Lean). -/
def typeKey : DiagramType → String
  | .architecture => "architecture"
  | .dataflow => "dataflow"
  | .sequence => "sequence"
  | .cls => "class"
  | .dependency => "dependency"
  | .er => "er"
  | .state => "state"

/-- The `label` field of each `DIAGRAM_TYPES` entry. -/
def typeLabel : DiagramType → String
  | .architecture => "Architecture Overview"
  | .dataflow => "Data Flow"
  | .sequence => "Key Sequences"
  | .cls => "Class Diagram"
  | .dependency => "Dependencies"
  | .er => "Entity Relationships"
  | .state => "State Machine"

/-- `mapTypeToCategory` from `src/diagrams.ts`. -/
def mapTypeToCategory : DiagramType → String
  | .architecture => "architecture"
  | .dataflow => "flows"
  | .sequence => "flows"
  | .cls => "patterns"
  | .dependency => "dependencies"
  | .er => "patterns"
  | .state => "flows"

/-- `DiagramRecord` from `src/diagrams.ts`. -/
structure DiagramRecord where
  id : String
  category : String
  title : String
  description : String
  mermaid : String
  labels : List String
  priority : Nat
deriving DecidableEq, Inhabited

/-- `createDiagramRecord` from `src/diagrams.ts`: the record's `id` is the
type key itself, the title comes from `DIAGRAM_TYPES`, the description
falls back to a generated one when absent or empty (JS `description ||`),
and the priority is 95 for `architecture`, 90 for `dataflow`, 75 otherwise.
No validation of the mermaid markup is performed. -/
def createDiagramRecord (type : DiagramType) (mermaid : String)
    (description : Option String) : DiagramRecord :=
  { id := typeKey type
    category := mapTypeToCategory type
    title := typeLabel type
    description :=
      match description with
      | some d => if d = "" then "Generated " ++ typeKey type ++ " diagram" else d
      | none => "Generated " ++ typeKey type ++ " diagram"
    mermaid := mermaid
    labels := [typeKey type, "generated"]
    priority :=
      if type = .architecture then 95 else if type = .dataflow then 90 else 75 }

/-- `mergeDiagrams` from `src/diagrams.ts`: drop every existing record with
the new record's id and put the new record first. -/
def mergeDiagrams (newDiagram : DiagramRecord) (existingDiagrams : List DiagramRecord) :
    List DiagramRecord :=
  newDiagram :: existingDiagrams.filter (fun d => d.id ≠ newDiagram.id)

/-- `DiagramSet` from `src/diagrams.ts`. -/
structure DiagramSet where
  generated : String
  hash : String
  diagrams : List DiagramRecord
  summary : String
deriving DecidableEq, Inhabited

/-- The `DiagramSet` built by the plugin's `saveDiagrams`: records sorted by
descending priority (stable); `generated` and `hash` come from the clock and
are passed in. -/
def mkDiagramSet (ts h : String) (diagrams : List DiagramRecord) : DiagramSet :=
  { generated := ts
    hash := h
    diagrams := sortByKeyDesc (·.priority) diagrams
    summary := Nat.repr diagrams.length ++ " diagrams" }

/-- The diagram list produced by the `diagram_update` tool before saving:
`mergeDiagrams(createDiagramRecord(type, mermaid, description), existing)`. -/
def mergedDiagrams (type : DiagramType) (mermaid : String)
    (description : Option String) (existingDiagrams : List DiagramRecord) :
    List DiagramRecord :=
  mergeDiagrams (createDiagramRecord type mermaid description) existingDiagrams

/-- `MAX_FILES_LIMIT` from the plugin's `src/index.ts`. -/
def MAX_FILES_LIMIT : Nat := 10000

/-- The plugin's observable state touched by `globalWorker.onmessage`:
the live model `lastAnalysis`, the persisted `analysis.json`, the live
`currentDiagrams` and the persisted `diagrams.json`. -/
structure PluginState where
  lastAnalysis : Option AnalyzeResult
  analysisFile : Option AnalyzeResult
  currentDiagrams : Option DiagramSet
  diagramsFile : Option DiagramSet
deriving DecidableEq, Inhabited

/-- `globalWorker.onmessage` from the plugin's `src/index.ts`: a result
whose file count exceeds `MAX_FILES_LIMIT` is only logged and the handler
returns before touching any state; otherwise the live model and
`analysis.json` are replaced, and when `generateDiagramsFromAnalysis`
produces at least one auto diagram, these are merged ahead of the existing
non-`"auto"`-labeled records and saved via `saveDiagrams`.  The diagram
generator is passed in as `gen` (its output markup does not affect the
state transitions modelled here); `ts` and `h` are the clock values used
by `saveDiagrams`. -/
def handleWorkerMessage (gen : AnalyzeResult → List DiagramRecord) (ts h : String)
    (s : PluginState) (analysis : AnalyzeResult) : PluginState :=
  if analysis.files.length > MAX_FILES_LIMIT then s
  else
    let s₁ := { s with lastAnalysis := some analysis, analysisFile := some analysis }
    let autoDiagrams := gen analysis
    if autoDiagrams.length > 0 then
      let existingNonAuto :=
        ((s.currentDiagrams.map (·.diagrams)).getD []).filter
          (fun d => ¬ d.labels.contains "auto")
      let merged := autoDiagrams ++ existingNonAuto
      let ds := mkDiagramSet ts h merged
      { s₁ with currentDiagrams := some ds, diagramsFile := some ds }
    else s₁

/-- The `diagram_update` tool from the plugin's `src/index.ts`: build the
record, merge it over the current diagrams, and save the resulting set
(both in memory and to `diagrams.json`).  The arguments are accepted as
given; no markup validation happens anywhere on this path. -/
def diagram_update (ts h : String) (type : DiagramType) (mermaid : String)
    (description : Option String) (s : PluginState) : PluginState :=
  let merged := mergedDiagrams type mermaid description
    ((s.currentDiagrams.map (·.diagrams)).getD [])
  let ds := mkDiagramSet ts h merged
  { s with currentDiagrams := some ds, diagramsFile := some ds }

/-! ### The graph view served by the server (`src/server/index.ts`)

`transformToGraph` turns the persisted analysis into the graph-view
document of `/api/graph`; above `MAX_NODES` files it switches to
`aggregateByDirectory`, which groups files by a depth-1/2 path prefix. -/

/-- Join path segments with `"/"` (the inverse of the segment-list
representation of a raw path string). -/
def joinPath : Path → String
  | [] => ""
  | [s] => s
  | s :: rest => s ++ "/" ++ joinPath rest

/-- `MAX_NODES` from `transformToGraph`. -/
def MAX_NODES : Nat := 200

/-- A node of the graph view (`id`/`path` kept in segment form). -/
structure GraphNode where
  id : Path
  label : String
  path : Path
  layer : String
  functions : Nat
  classes : Nat
  exports : Nat
deriving DecidableEq, Inhabited

/-- An edge of the graph view; endpoints are raw path strings as the
source compares raw import strings against path strings. -/
structure GraphEdge where
  source : String
  target : String
  type : String
deriving DecidableEq, Inhabited

/-- The document served at `/api/graph`. -/
structure GraphData where
  nodes : List GraphNode
  edges : List GraphEdge
  timestamp : String
deriving DecidableEq, Inhabited

/-- The grouping key of `aggregateByDirectory`: the first two path
segments when the path has more than two, otherwise the first one. -/
def dirKey (p : Path) : Path :=
  p.take (if p.length > 2 then 2 else 1)

/-- The per-group accumulator of `aggregateByDirectory`. -/
structure DirStats where
  files : Nat
  functions : Nat
  classes : Nat
  layers : List (String × Nat)
deriving DecidableEq, Inhabited

/-- One `dirMap` update step of `aggregateByDirectory` (`Map.get` with a
fresh default, field updates, `Map.set`; `f.layer || "other"`). -/
def addDirFile (k : Path) (f : FileInfo) :
    List (Path × DirStats) → List (Path × DirStats)
  | [] => [(k, ⟨1, f.functions.length, f.classes.length,
             bumpCount (if f.layer = "" then "other" else f.layer) []⟩)]
  | (k', s) :: rest =>
    if k' = k then
      (k', ⟨s.files + 1, s.functions + f.functions.length,
            s.classes + f.classes.length,
            bumpCount (if f.layer = "" then "other" else f.layer) s.layers⟩) :: rest
    else (k', s) :: addDirFile k f rest

/-- `Object.entries(data.layers).sort((a, b) => b[1] - a[1])[0]?.[0] ||
"other"`: the majority layer of a group, ties broken by first occurrence. -/
def dominantLayer (layers : List (String × Nat)) : String :=
  match sortByKeyDesc (·.2) layers with
  | [] => "other"
  | (l, _) :: _ => l

/-- `aggregateByDirectory` from `src/server/index.ts`: group the files by
`dirKey`, then emit one node per group with summed function/class counts,
the file count in the label and as `exports`, and the dominant layer.
The aggregated view has no edges. -/
def aggregateByDirectory (files : List FileInfo) (ts : String) : GraphData :=
  let dirMap := files.foldl (fun m f => addDirFile (dirKey f.path) f m) []
  { nodes := dirMap.map (fun g =>
      { id := g.1
        label := joinPath g.1 ++ " (" ++ Nat.repr g.2.files ++ ")"
        path := g.1
        layer := dominantLayer g.2.layers
        functions := g.2.functions
        classes := g.2.classes
        exports := g.2.files })
    edges := []
    timestamp := ts }

/-- `transformToGraph` from `src/server/index.ts`: above `MAX_NODES` files
the aggregated view is served; otherwise one node per file, and an edge for
every raw import string that literally equals an existing node id. -/
def transformToGraph (analysis : AnalyzeResult) : GraphData :=
  let files := analysis.files
  if files.length > MAX_NODES then aggregateByDirectory files analysis.timestamp
  else
    let nodes := files.map (fun f =>
      { id := f.path
        label := f.path.getLast?.getD (joinPath f.path)
        path := f.path
        layer := if f.layer = "" then "other" else f.layer
        functions := f.functions.length
        classes := f.classes.length
        exports := f.exports.length : GraphNode })
    let fileSet := nodes.map (fun n => joinPath n.id)
    let edges := files.flatMap (fun f =>
      (f.imports.filter (fun imp => fileSet.contains imp)).map
        (fun imp => { source := joinPath f.path, target := imp, type := "imports" : GraphEdge }))
    { nodes := nodes, edges := edges, timestamp := analysis.timestamp }

/-! ### The `CodeAnalyzer` model and the generator's dependency edges
(`src/analyzer/treesitter.ts`, `src/generator/mdx.ts`)

`buildDependencyGraph` records the raw relative import strings per file;
`MdxGenerator.generateDependencyData` resolves each one against the file
set with `resolveImport` and keeps only successfully resolved edges. -/

/-- `ImportInfo` from `src/analyzer/treesitter.ts` (the parsed surface
form of one import; the `isRelative` flag is set by the per-language
parser). -/
structure ImportInfo where
  source : String
  specifiers : List String
  isRelative : Bool
deriving DecidableEq, Inhabited

/-- `ExportInfo` from `src/analyzer/treesitter.ts`. -/
structure ExportInfo where
  name : String
  type : String
deriving DecidableEq, Inhabited

/-- `FunctionInfo` from `src/analyzer/treesitter.ts`. -/
structure FunctionInfo where
  name : String
  line : Nat
  params : List String
  isAsync : Bool
  isExported : Bool
deriving DecidableEq, Inhabited

/-- `ClassInfo` from `src/analyzer/treesitter.ts`. -/
structure ClassInfo where
  name : String
  line : Nat
  methods : List String
  isExported : Bool
deriving DecidableEq, Inhabited

/-- `FileAnalysis` from `src/analyzer/treesitter.ts` (the absolute `path`
field, unused by the functions modelled here, is not carried). -/
structure FileAnalysis where
  relativePath : Path
  language : String
  imports : List ImportInfo
  exports : List ExportInfo
  functions : List FunctionInfo
  classes : List ClassInfo
deriving DecidableEq, Inhabited

/-- `buildDependencyGraph` from `src/analyzer/treesitter.ts`: per file, the
raw sources of its relative imports. -/
def buildDependencyGraph (files : List FileAnalysis) : List (Path × List String) :=
  files.map (fun f => (f.relativePath, (f.imports.filter (·.isRelative)).map (·.source)))

/-- The layer patterns of `CodeAnalyzer.detectLayers` (case-sensitive, and
matched against `relativePath` without a leading slash, so an alternative
matches iff it equals a segment that is neither first nor last). -/
def tsLayerPatterns : List (List String × String) :=
  [(["api", "route", "routes", "handler", "handlers", "controller", "controllers"], "api"),
   (["service", "services", "usecase", "usecases", "domain"], "service"),
   (["model", "models", "entitie", "entities", "schema", "schemas"], "model"),
   (["util", "utils", "helper", "helpers", "lib"], "util"),
   (["component", "components", "view", "views", "page", "pages"], "ui"),
   (["test", "tests", "__tests__", "spec", "specs"], "test"),
   (["config", "setting", "settings"], "config")]

/-- `CodeAnalyzer.detectLayers`: first matching pattern wins, `"other"`
otherwise. -/
def detectLayers (files : List FileAnalysis) : List (Path × String) :=
  files.map (fun f =>
    (f.relativePath,
     match tsLayerPatterns.find?
         (fun pat => (f.relativePath.dropLast.drop 1).any (fun seg => pat.1.contains seg)) with
     | some pat => pat.2
     | none => "other"))

/-- `CodebaseAnalysis` from `src/analyzer/treesitter.ts`. -/
structure CodebaseAnalysis where
  files : List FileAnalysis
  dependencyGraph : List (Path × List String)
  layerMap : List (Path × String)
  timestamp : String
deriving DecidableEq, Inhabited

/-- The `CodebaseAnalysis` assembled by `CodeAnalyzer.analyze` and
`CodeAnalyzer.analyzeIncremental` from a file set: the dependency graph
and layer map are always recomputed from the whole current file list. -/
def mkCodebaseAnalysis (files : List FileAnalysis) (ts : String) : CodebaseAnalysis :=
  { files := files
    dependencyGraph := buildDependencyGraph files
    layerMap := detectLayers files
    timestamp := ts }

/-- One step of node's `path.join` normalization over a reversed segment
stack: empty and `"."` segments are dropped, `".."` pops a segment when one
is available (and is kept when leading). -/
def normalizeStep (stack : List String) (seg : String) : List String :=
  if seg = "" ∨ seg = "." then stack
  else if seg = ".." then
    match stack with
    | [] => [".."]
    | top :: rest => if top = ".." then seg :: top :: rest else rest
  else seg :: stack

/-- Embedding of `join(fromDir, importPath)` on segment lists. -/
def normalizeJoin (segs : List String) : Path :=
  (segs.foldl normalizeStep []).reverse

/-- The joined and normalized base path `resolved` of `resolveImport`. -/
def resolvedOf (fromFile : Path) (importPath : String) : Path :=
  normalizeJoin (fromFile.dropLast ++ splitSlash importPath)

/-- Append a suffix string to the last segment of a path (string
concatenation `resolved + ext` for a slash-free suffix). -/
def appendToLast (suffix : String) : Path → Path
  | [] => [suffix]
  | [s] => [s ++ suffix]
  | s :: rest => s :: appendToLast suffix rest

/-- `resolved + ext` in segment form: the empty suffix is the path itself,
a suffix starting with `"/"` adds one segment, and any other suffix extends
the last segment. -/
def applySuffix (resolved : Path) (ext : String) : Path :=
  if ext = "" then resolved
  else if startsWithSlash ext then resolved ++ [strTail ext]
  else appendToLast ext resolved

/-- The candidate-suffix list of `MdxGenerator.resolveImport`.  (The copy
in `DiagramGenerator.resolveImport` omits the final `"/index.js"` but is
otherwise identical.) -/
def extensions : List String :=
  ["", ".ts", ".tsx", ".js", ".jsx", "/index.ts", "/index.tsx", "/index.js"]

/-- The `for (const ext of extensions)` loop of `resolveImport`: the first
candidate equal to an existing `relativePath` wins. -/
def tryExtensions (files : List FileAnalysis) (resolved : Path) :
    List String → Option Path
  | [] => none
  | ext :: rest =>
    let candidate := applySuffix resolved ext
    if files.any (fun f => decide (f.relativePath = candidate)) then some candidate
    else tryExtensions files resolved rest

/-- `MdxGenerator.resolveImport`: non-relative imports resolve to `null`;
relative ones are joined against the importing file's directory and tried
against the candidate-suffix list. -/
def resolveImport (fromFile : Path) (importPath : String)
    (files : List FileAnalysis) : Option Path :=
  if ¬ startsWithDot importPath then none
  else tryExtensions files (resolvedOf fromFile importPath) extensions

/-- A node of the generator's `graph.json`. -/
structure MdxNode where
  id : Path
  label : String
  layer : String
  functions : Nat
  classes : Nat
  exports : Nat
deriving DecidableEq, Inhabited

/-- The serializable `{ nodes, edges, timestamp }` data written by
`MdxGenerator.generateDependencyData`. -/
structure MdxGraph where
  nodes : List MdxNode
  edges : List (Path × Path)
  timestamp : String
deriving DecidableEq, Inhabited

/-- `MdxGenerator.generateDependencyData`: one node per file (layer from
the layer map with `|| "other"` fallback), and one edge per dependency-graph
entry whose raw import resolves to an existing file. -/
def generateDependencyData (analysis : CodebaseAnalysis) : MdxGraph :=
  { nodes := analysis.files.map (fun f =>
      { id := f.relativePath
        label := (f.relativePath.getLast?).getD ""
        layer :=
          match analysis.layerMap.find? (fun e => e.1 = f.relativePath) with
          | some e => if e.2 = "" then "other" else e.2
          | none => "other"
        functions := f.functions.length
        classes := f.classes.length
        exports := f.exports.length })
    edges := analysis.dependencyGraph.flatMap (fun st =>
      st.2.filterMap (fun target =>
        (resolveImport st.1 target analysis.files).map (fun r => (st.1, r))))
    timestamp := analysis.timestamp }

/-- The dependency edges produced for a file set by the analyzer-generator
pipeline (`analyze`/`analyzeIncremental` followed by
`generateDependencyData`). -/
def edgesOfModel (files : List FileAnalysis) (ts : String) : List (Path × Path) :=
  (generateDependencyData (mkCodebaseAnalysis files ts)).edges

/-- Modelled from the spec (claim C4): the candidate-suffix list read off
the specification's words — "no suffix, each supported source extension,
and an index-file candidate per extension" — over the supported source
extensions of the `EXTENSIONS` table. -/
def specSuffixes : List String :=
  ["", ".ts", ".tsx", ".js", ".jsx", ".py", ".go", ".rs",
   "/index.ts", "/index.tsx", "/index.js", "/index.jsx",
   "/index.py", "/index.go", "/index.rs"]

/-- Modelled from the spec (claim C4): `resolveImport` as the claim states
it, identical to the code's except for the candidate-suffix list. -/
def resolveImportClaim (fromFile : Path) (importPath : String)
    (files : List FileAnalysis) : Option Path :=
  if ¬ startsWithDot importPath then none
  else tryExtensions files (resolvedOf fromFile importPath) specSuffixes

/-! ### Concrete fixtures used by the witnesses and counterexamples -/

/-- A file whose lexical scan found nothing. -/
def c0 : Content := ⟨[], [], [], []⟩

/-- A workspace with two analyzable top-level files. -/
def fsAB : FsListing := .ofList [.file "a.ts" c0, .file "b.ts" c0]

/-- A workspace whose only file lives under `node_modules/`. -/
def fsNM : FsListing := .ofList [.dir "node_modules" (.ofList [.file "evil.ts" c0])]

/-- The domain-grouping scenario workspace: three files under `src/auth/`
and two under `src/users/`. -/
def fs9 : FsListing := .ofList
  [.dir "src" (.ofList
    [.dir "auth" (.ofList
      [.file "login.ts" c0, .file "logout.ts" c0, .file "register.ts" c0]),
     .dir "users" (.ofList
      [.file "get.ts" c0, .file "list.ts" c0])])]

/-- The same workspace with `src/users/delete.ts` added. -/
def fs9plus : FsListing := .ofList
  [.dir "src" (.ofList
    [.dir "auth" (.ofList
      [.file "login.ts" c0, .file "logout.ts" c0, .file "register.ts" c0]),
     .dir "users" (.ofList
      [.file "get.ts" c0, .file "list.ts" c0, .file "delete.ts" c0])])]

/-- A flat top-level TypeScript file record (`"7.ts"` and so on). -/
def mkFlat (i : Nat) : FileInfo :=
  ⟨[Nat.repr i ++ ".ts"], "typescript", "other", [], [], [], []⟩

/-- A model of 201 flat top-level files (every `dirKey` is distinct). -/
def flat201 : AnalyzeResult := ⟨(List.range 201).map mkFlat, [], [], "t"⟩

/-- A model of 201 files that all share the `src/core` prefix. -/
def shared201 : AnalyzeResult :=
  ⟨(List.range 201).map
    (fun i => ⟨["src", "core", Nat.repr i ++ ".ts"], "typescript", "other", [], [], [], []⟩),
   [], [], "t"⟩

/-- A model whose file count exceeds `MAX_FILES_LIMIT`. -/
def big10001 : AnalyzeResult := ⟨(List.range 10001).map mkFlat, [], [], "t"⟩

/-- An empty plugin state. -/
def s0 : PluginState := ⟨none, none, none, none⟩

/-- An empty analysis result. -/
def emptyAnalysis : AnalyzeResult := ⟨[], [], [], "t"⟩

/-- `src/index.ts` importing `./utils` and `./missing`. -/
def idxF : FileAnalysis :=
  ⟨["src", "index.ts"], "typescript",
   [⟨"./utils", [], true⟩, ⟨"./missing", [], true⟩], [], [], []⟩

/-- `src/utils.ts`, the resolution target of the scenario. -/
def utlF : FileAnalysis := ⟨["src", "utils.ts"], "typescript", [], [], [], []⟩

/-- `pkg/main.go` importing `./utils`. -/
def goMain : FileAnalysis :=
  ⟨["pkg", "main.go"], "go", [⟨"./utils", ["utils"], true⟩], [], [], []⟩

/-- `pkg/utils.go`, resolvable only with the `.go` extension. -/
def goUtil : FileAnalysis := ⟨["pkg", "utils.go"], "go", [], [], [], []⟩

/-- An existing `architecture` diagram record. -/
def archOld : DiagramRecord := createDiagramRecord .architecture "old" none

/-- A separately-present `sequence` diagram record. -/
def seqRec : DiagramRecord := createDiagramRecord .sequence "seq" none

/-- The freshly merged `architecture` record of the merge scenario. -/
def newArch : DiagramRecord := createDiagramRecord .architecture "new arch" (some "d")

/-- A plugin state whose diagram set holds exactly the `sequence` record. -/
def sSeq : PluginState :=
  ⟨none, none, some (mkDiagramSet "t0" "h0" [seqRec]), some (mkDiagramSet "t0" "h0" [seqRec])⟩

/-- File `j` of domain `dom<i>`. -/
def mkDomFile (i j : Nat) : FileInfo :=
  ⟨["dom" ++ Nat.repr i, "f" ++ Nat.repr j ++ ".ts"], "typescript", "other", [], [], [], []⟩

/-- Eleven qualifying domains `dom0 … dom10`, of sizes 2 … 12. -/
def files11 : List FileInfo :=
  (List.range 11).flatMap (fun i => (List.range (i + 2)).map (mkDomFile i))

/-! ### Helper lemmas -/

theorem mem_insertByKeyDesc {key : α → Nat} {x y : α} {l : List α} :
    y ∈ insertByKeyDesc key x l ↔ y = x ∨ y ∈ l := by
  induction l with
  | nil => simp [insertByKeyDesc]
  | cons z zs ih =>
    rw [insertByKeyDesc]
    split
    · simp [List.mem_cons]
    · simp only [List.mem_cons, ih]
      tauto

theorem pairwise_insertByKeyDesc {key : α → Nat} {x : α} {l : List α}
    (h : l.Pairwise (fun a b => key b ≤ key a)) :
    (insertByKeyDesc key x l).Pairwise (fun a b => key b ≤ key a) := by
  induction l with
  | nil => simp [insertByKeyDesc]
  | cons z zs ih =>
    rw [List.pairwise_cons] at h
    obtain ⟨hz, hzs⟩ := h
    by_cases hc : key z ≤ key x
    · rw [insertByKeyDesc, if_pos hc, List.pairwise_cons]
      refine ⟨?_, List.pairwise_cons.2 ⟨hz, hzs⟩⟩
      intro y hy
      rcases List.mem_cons.1 hy with rfl | hy
      · exact hc
      · exact le_trans (hz y hy) hc
    · rw [insertByKeyDesc, if_neg hc, List.pairwise_cons]
      refine ⟨?_, ih hzs⟩
      intro y hy
      rcases mem_insertByKeyDesc.1 hy with rfl | hy
      · omega
      · exact hz y hy

theorem pairwise_sortByKeyDesc {key : α → Nat} (l : List α) :
    (sortByKeyDesc key l).Pairwise (fun a b => key b ≤ key a) := by
  induction l with
  | nil => simp [sortByKeyDesc]
  | cons x xs ih => exact pairwise_insertByKeyDesc ih

theorem mem_sortByKeyDesc {key : α → Nat} {y : α} {l : List α} :
    y ∈ sortByKeyDesc key l ↔ y ∈ l := by
  induction l with
  | nil => simp [sortByKeyDesc]
  | cons x xs ih => simp [sortByKeyDesc, mem_insertByKeyDesc, ih]

theorem detectDomains_fileCount_ge_two (files : List FileInfo) :
    ∀ d ∈ detectDomains files, 2 ≤ d.fileCount := by
  intro d hd
  unfold detectDomains at hd
  have hd' := (List.take_sublist 10 _).mem hd
  rw [mem_sortByKeyDesc, List.mem_map] at hd'
  obtain ⟨g, hg, rfl⟩ := hd'
  have h2 := (List.mem_filter.1 hg).2
  simpa using h2

theorem addDirFile_keys (k : Path) (f : FileInfo) (m : List (Path × DirStats)) :
    (addDirFile k f m).map Prod.fst =
      if k ∈ m.map Prod.fst then m.map Prod.fst else m.map Prod.fst ++ [k] := by
  induction m with
  | nil => simp [addDirFile]
  | cons e rest ih =>
    obtain ⟨k', s⟩ := e
    by_cases hk : k' = k
    · subst hk
      simp [addDirFile]
    · simp only [addDirFile, if_neg hk, List.map_cons]
      have hne : ¬ k = k' := fun h => hk h.symm
      by_cases hmem : k ∈ rest.map Prod.fst
      · simp [List.mem_cons, hne, hmem, ih]
      · simp [List.mem_cons, hne, hmem, ih]

theorem mem_addDirFile_keys {k i : Path} {f : FileInfo} {m : List (Path × DirStats)} :
    i ∈ (addDirFile k f m).map Prod.fst ↔ i ∈ m.map Prod.fst ∨ i = k := by
  rw [addDirFile_keys]
  split
  · next hmem =>
    constructor
    · exact Or.inl
    · rintro (h | rfl)
      · exact h
      · exact hmem
  · simp only [List.mem_append, List.mem_singleton]

theorem length_addDirFile (k : Path) (f : FileInfo) (m : List (Path × DirStats)) :
    (addDirFile k f m).length ≤ m.length + 1 := by
  have h := congrArg List.length (addDirFile_keys k f m)
  simp only [List.length_map] at h
  split at h
  · simp only [List.length_map] at h
    omega
  · simp only [List.length_append, List.length_map, List.length_singleton] at h
    omega

theorem nodup_addDirFile_keys {k : Path} {f : FileInfo} {m : List (Path × DirStats)}
    (h : (m.map Prod.fst).Nodup) :
    ((addDirFile k f m).map Prod.fst).Nodup := by
  rw [addDirFile_keys]
  split
  · exact h
  · next hmem =>
    rw [List.nodup_append]
    refine ⟨h, List.nodup_singleton k, ?_⟩
    intro a ha hak
    rw [List.mem_singleton] at hak
    exact hmem (hak ▸ ha)

theorem length_dirFold (files : List FileInfo) (m : List (Path × DirStats)) :
    (files.foldl (fun m f => addDirFile (dirKey f.path) f m) m).length ≤
      m.length + files.length := by
  induction files generalizing m with
  | nil => simp
  | cons f fs ih =>
    rw [List.foldl_cons]
    have h1 := ih (addDirFile (dirKey f.path) f m)
    have h2 := length_addDirFile (dirKey f.path) f m
    simp only [List.length_cons]
    omega

theorem nodup_dirFold (files : List FileInfo) (m : List (Path × DirStats))
    (h : (m.map Prod.fst).Nodup) :
    (((files.foldl (fun m f => addDirFile (dirKey f.path) f m) m)).map Prod.fst).Nodup := by
  induction files generalizing m with
  | nil => simpa
  | cons f fs ih =>
    rw [List.foldl_cons]
    exact ih _ (nodup_addDirFile_keys h)

theorem mem_dirFold_keys (files : List FileInfo) (m : List (Path × DirStats)) (i : Path) :
    i ∈ (files.foldl (fun m f => addDirFile (dirKey f.path) f m) m).map Prod.fst ↔
      i ∈ m.map Prod.fst ∨ ∃ f ∈ files, dirKey f.path = i := by
  induction files generalizing m with
  | nil => simp
  | cons f fs ih =>
    rw [List.foldl_cons, ih]
    constructor
    · rintro (h | h)
      · rcases mem_addDirFile_keys.1 h with h' | rfl
        · exact Or.inl h'
        · exact Or.inr ⟨f, List.mem_cons_self f fs, rfl⟩
      · obtain ⟨g, hg, rfl⟩ := h
        exact Or.inr ⟨g, List.mem_cons_of_mem f hg, rfl⟩
    · rintro (h | h)
      · exact Or.inl (mem_addDirFile_keys.2 (Or.inl h))
      · obtain ⟨g, hg, rfl⟩ := h
        rcases List.mem_cons.1 hg with rfl | hg'
        · exact Or.inl (mem_addDirFile_keys.2 (Or.inr rfl))
        · exact Or.inr ⟨g, hg', rfl⟩

theorem tryExtensions_mem {files : List FileAnalysis} {resolved : Path}
    {exts : List String} {r : Path}
    (h : tryExtensions files resolved exts = some r) :
    ∃ f ∈ files, f.relativePath = r := by
  induction exts with
  | nil => simp [tryExtensions] at h
  | cons e rest ih =>
    simp only [tryExtensions] at h
    split at h
    · next hany =>
      rw [Option.some.injEq] at h
      subst h
      obtain ⟨f, hf, hfr⟩ := List.any_eq_true.1 hany
      exact ⟨f, hf, of_decide_eq_true hfr⟩
    · exact ih h

theorem tryExtensions_eq_find (files : List FileAnalysis) (resolved : Path)
    (exts : List String) :
    tryExtensions files resolved exts =
      (exts.map (applySuffix resolved)).find?
        (fun c => files.any (fun f => decide (f.relativePath = c))) := by
  induction exts with
  | nil => rfl
  | cons e rest ih =>
    simp only [tryExtensions, List.map_cons]
    by_cases h : files.any (fun f => decide (f.relativePath = applySuffix resolved e)) = true
    · rw [if_pos h]
      exact (@List.find?_cons_of_pos Path
        (fun c => files.any (fun f => decide (f.relativePath = c)))
        (applySuffix resolved e) (rest.map (applySuffix resolved)) h).symm
    · rw [if_neg h, ih]
      exact (@List.find?_cons_of_neg Path
        (fun c => files.any (fun f => decide (f.relativePath = c)))
        (applySuffix resolved e) (rest.map (applySuffix resolved)) (by simpa using h)).symm

theorem resolveImport_mem {fromFile : Path} {importPath : String}
    {files : List FileAnalysis} {r : Path}
    (h : resolveImport fromFile importPath files = some r) :
    ∃ f ∈ files, f.relativePath = r := by
  unfold resolveImport at h
  split at h
  · exact absurd h (by simp)
  · exact tryExtensions_mem h

theorem skip_cond_parts {name : String}
    (h : ¬ (startsWithDot name || IGNORE_DIRS.contains name) = true) :
    name ∉ IGNORE_DIRS ∧ startsWithDot name = false := by
  simp only [Bool.or_eq_true, not_or, Bool.not_eq_true] at h
  obtain ⟨h1, h2⟩ := h
  refine ⟨?_, h1⟩
  intro hmem
  simp_all

mutual

theorem collectEntry_clean : ∀ (e : FsTree), ∀ p ∈ collectEntry e, ∀ seg ∈ p,
    seg ∉ IGNORE_DIRS ∧ startsWithDot seg = false := by
  intro e
  match e with
  | .file name _ =>
    intro p hp seg hseg
    simp only [collectEntry] at hp
    split at hp
    · simp at hp
    · next hcond =>
      split at hp
      · rw [List.mem_singleton] at hp
        subst hp
        rw [List.mem_singleton] at hseg
        subst hseg
        exact skip_cond_parts hcond
      · simp at hp
  | .dir name children =>
    intro p hp seg hseg
    simp only [collectEntry] at hp
    split at hp
    · simp at hp
    · next hcond =>
      rw [List.mem_map] at hp
      obtain ⟨q, hq, rfl⟩ := hp
      rcases List.mem_cons.1 hseg with rfl | hseg'
      · exact skip_cond_parts hcond
      · exact collectFiles_clean children q hq seg hseg'

theorem collectFiles_clean : ∀ (l : FsListing), ∀ p ∈ collectFiles l, ∀ seg ∈ p,
    seg ∉ IGNORE_DIRS ∧ startsWithDot seg = false := by
  intro l
  match l with
  | .nil =>
    intro p hp
    simp [collectFiles] at hp
  | .cons e rest =>
    intro p hp
    rw [collectFiles, List.mem_append] at hp
    rcases hp with h | h
    · exact collectEntry_clean e p h
    · exact collectFiles_clean rest p h

end

theorem analyzeFile_path {fs : FsListing} {p : Path} {r : FileInfo}
    (h : analyzeFile fs p = some r) : r.path = p := by
  unfold analyzeFile at h
  split at h
  · exact absurd h (by simp)
  · rw [Option.some.injEq] at h
    subst h
    rfl

/-! ### Claim theorems -/

/-- C1 (the code at the failing input): on a workspace holding `a.ts` and
`b.ts`, the worker's incremental pass for the one-file change set
`["a.ts"]` answers a model containing only the record of `a.ts` — the
plugin handler then replaces the live model with it wholesale — while the
full pass over the same file-system state produces records for both files;
the two models differ even as sets of records, refuting the claimed
incremental/full equivalence. -/
theorem c1_incremental_replaces_model :
    (workerAnalyze fsAB (some [["a.ts"]]) "t").files.map FileInfo.path = [["a.ts"]] ∧
    (workerAnalyze fsAB none "t").files.map FileInfo.path = [["a.ts"], ["b.ts"]] ∧
    ∃ r ∈ (workerAnalyze fsAB none "t").files,
      ∀ r' ∈ (workerAnalyze fsAB (some [["a.ts"]]) "t").files, r'.path ≠ r.path := by
  decide

/-- C2 counterexample: a model of 201 flat top-level files exceeds the
display ceiling, yet every file is its own prefix group, so the aggregated
graph view has exactly 201 nodes — not strictly fewer than the file count,
and not below the ceiling. -/
theorem c2_flat_files_defeat_aggregation :
    flat201.files.length = 201 ∧
    MAX_NODES < flat201.files.length ∧
    (transformToGraph flat201).nodes.length = flat201.files.length ∧
    ¬ ((transformToGraph flat201).nodes.length < flat201.files.length) := by
  have hfl : flat201.files.length = 201 := by
    show ((List.range 201).map mkFlat).length = 201
    rw [List.length_map, List.length_range]
  have hnodes : (transformToGraph flat201).nodes.length = 201 := by decide
  refine ⟨hfl, ?_, ?_, ?_⟩
  · rw [hfl]; decide
  · rw [hnodes, hfl]
  · rw [hnodes, hfl]; omega

/-- C2 (amended): when the file count exceeds the display ceiling, the
graph view emits no per-file nodes but one node per distinct depth-1/2
path-prefix group: the node ids are exactly the distinct `dirKey`s of the
files, without duplicates, so the node count never exceeds the file count
(and is strictly below it exactly when two files share a prefix group). -/
theorem c2_grouped_view_bounds (analysis : AnalyzeResult)
    (hover : MAX_NODES < analysis.files.length) :
    (transformToGraph analysis).nodes.length ≤ analysis.files.length ∧
    ((transformToGraph analysis).nodes.map GraphNode.id).Nodup ∧
    (∀ f ∈ analysis.files,
        dirKey f.path ∈ (transformToGraph analysis).nodes.map GraphNode.id) ∧
    (∀ i ∈ (transformToGraph analysis).nodes.map GraphNode.id,
        ∃ f ∈ analysis.files, dirKey f.path = i) := by
  have htg : transformToGraph analysis =
      aggregateByDirectory analysis.files analysis.timestamp := by
    simp only [transformToGraph]
    rw [if_pos hover]
  have hids : (aggregateByDirectory analysis.files analysis.timestamp).nodes.map
        GraphNode.id =
      (analysis.files.foldl (fun m f => addDirFile (dirKey f.path) f m) []).map
        Prod.fst := by
    simp only [aggregateByDirectory, List.map_map]
    rfl
  rw [htg]
  refine ⟨?_, ?_, ?_, ?_⟩
  · have h1 : (aggregateByDirectory analysis.files analysis.timestamp).nodes.length =
        (analysis.files.foldl (fun m f => addDirFile (dirKey f.path) f m) []).length := by
      simp [aggregateByDirectory]
    rw [h1]
    simpa using length_dirFold analysis.files []
  · rw [hids]
    exact nodup_dirFold _ _ (by simp)
  · intro f hf
    rw [hids, mem_dirFold_keys]
    exact Or.inr ⟨f, hf, rfl⟩
  · intro i hi
    rw [hids, mem_dirFold_keys] at hi
    rcases hi with h | h
    · simp at h
    · exact h

/-- C2 witness: the grouped-view bounds applied to 201 files sharing the
`src/core` prefix. -/
theorem c2_grouped_view_bounds_witness :
    MAX_NODES < shared201.files.length ∧
    ((transformToGraph shared201).nodes.map GraphNode.id).Nodup ∧
    (transformToGraph shared201).nodes.length ≤ shared201.files.length := by
  have hlen : MAX_NODES < shared201.files.length := by
    show MAX_NODES < ((List.range 201).map _).length
    rw [List.length_map, List.length_range]
    decide
  have h := c2_grouped_view_bounds shared201 hlen
  exact ⟨hlen, h.2.1, h.1⟩

/-- C3: every dependency edge produced by the generator pipeline has both
endpoints among the model's file records (the source is a dependency-graph
key, which is a file's path; the target is a resolution result, which is
only ever an existing file's path), and likewise for the graph-view edges
served by the server. -/
theorem c3_edges_endpoints_in_model (files : List FileAnalysis) (ts : String)
    (analysis : AnalyzeResult) :
    (∀ e ∈ edgesOfModel files ts,
      (∃ f ∈ files, f.relativePath = e.1) ∧ (∃ f ∈ files, f.relativePath = e.2)) ∧
    (∀ e ∈ (transformToGraph analysis).edges,
      (∃ f ∈ analysis.files, joinPath f.path = e.source) ∧
      (∃ f ∈ analysis.files, joinPath f.path = e.target)) := by
  constructor
  · intro e he
    simp only [edgesOfModel, generateDependencyData, mkCodebaseAnalysis] at he
    rw [List.mem_flatMap] at he
    obtain ⟨st, hst, he⟩ := he
    rw [List.mem_filterMap] at he
    obtain ⟨target, htarget, hsome⟩ := he
    rw [Option.map_eq_some'] at hsome
    obtain ⟨r, hres, rfl⟩ := hsome
    simp only [buildDependencyGraph, List.mem_map] at hst
    obtain ⟨f, hf, rfl⟩ := hst
    exact ⟨⟨f, hf, rfl⟩, resolveImport_mem hres⟩
  · intro e he
    by_cases hlen : analysis.files.length > MAX_NODES
    · simp only [transformToGraph, if_pos hlen, aggregateByDirectory,
        List.not_mem_nil] at he
    · simp only [transformToGraph, if_neg hlen] at he
      rw [List.mem_flatMap] at he
      obtain ⟨f, hf, he⟩ := he
      rw [List.mem_map] at he
      obtain ⟨imp, himp, rfl⟩ := he
      rw [List.mem_filter] at himp
      obtain ⟨himps, hcontains⟩ := himp
      refine ⟨⟨f, hf, rfl⟩, ?_⟩
      simp only [List.map_map, List.contains_eq_any_beq, List.any_eq_true,
        Function.comp] at hcontains
      obtain ⟨x, hx, hbeq⟩ := hcontains
      rw [List.mem_map] at hx
      obtain ⟨g, hg, rfl⟩ := hx
      exact ⟨g, hg, (beq_iff_eq.1 hbeq).symm⟩

/-- C3 witness: the scenario edge `src/index.ts → src/utils.ts` has both
endpoints among the model's records. -/
theorem c3_edges_endpoints_in_model_witness :
    (∃ f ∈ [idxF, utlF], f.relativePath = ["src", "index.ts"]) ∧
    (∃ f ∈ [idxF, utlF], f.relativePath = ["src", "utils.ts"]) := by
  exact (c3_edges_endpoints_in_model [idxF, utlF] "t" emptyAnalysis).1
    (["src", "index.ts"], ["src", "utils.ts"]) (by decide)

/-- C4 counterexample: `pkg/main.go` importing `./utils` with
`pkg/utils.go` present.  `.go` is a supported source extension, so the
claim's candidate list resolves the import to `pkg/utils.go`, but the
code's candidate list tries only the JS-family suffixes and produces no
edge. -/
theorem c4_go_import_unresolved :
    resolveImport ["pkg", "main.go"] "./utils" [goMain, goUtil] = none ∧
    edgesOfModel [goMain, goUtil] "t" = [] ∧
    resolveImportClaim ["pkg", "main.go"] "./utils" [goMain, goUtil] =
      some ["pkg", "utils.go"] ∧
    (∃ f ∈ [goMain, goUtil], f.relativePath = ["pkg", "utils.go"]) ∧
    ".go" ∈ EXTENSIONS.map Prod.fst := by
  decide

/-- C4 (amended): for a relative import, resolution walks the fixed
candidate list — the raw joined path, then `.ts`/`.tsx`/`.js`/`.jsx`
appended, then the `index` candidates `/index.ts`, `/index.tsx`,
`/index.js` — and returns the first candidate equal to an existing file's
path; non-relative imports resolve to nothing; in the scenario model,
`./utils` yields exactly the one edge to `src/utils.ts` and `./missing`
yields none. -/
theorem c4_candidate_resolution :
    (∀ (fromFile : Path) (importPath : String) (files : List FileAnalysis),
        startsWithDot importPath = true →
        resolveImport fromFile importPath files =
          (extensions.map (applySuffix (resolvedOf fromFile importPath))).find?
            (fun c => files.any (fun f => decide (f.relativePath = c)))) ∧
    (∀ (fromFile : Path) (importPath : String) (files : List FileAnalysis),
        startsWithDot importPath = false →
        resolveImport fromFile importPath files = none) ∧
    edgesOfModel [idxF, utlF] "t" =
      [(["src", "index.ts"], ["src", "utils.ts"])] := by
  refine ⟨?_, ?_, by decide⟩
  · intro fromFile importPath files hrel
    unfold resolveImport
    rw [if_neg (by simp [hrel]), tryExtensions_eq_find]
  · intro fromFile importPath files hrel
    unfold resolveImport
    rw [if_pos (by simp [hrel])]

/-- C4 witness: the first-candidate-wins characterization applied to the
scenario import. -/
theorem c4_candidate_resolution_witness :
    startsWithDot "./utils" = true ∧
    resolveImport ["src", "index.ts"] "./utils" [idxF, utlF] =
      (extensions.map (applySuffix (resolvedOf ["src", "index.ts"] "./utils"))).find?
        (fun c => [idxF, utlF].any (fun f => decide (f.relativePath = c))) := by
  exact ⟨by decide, c4_candidate_resolution.1 _ _ _ (by decide)⟩

/-- C5 counterexample: full-mode collection of a workspace whose only file
is `node_modules/evil.ts` finds nothing, but an incremental pass
re-analyzing that explicitly supplied path produces a file record for it —
an excluded directory name appears in a model path. -/
theorem c5_incremental_ignores_exclusions :
    collectFiles fsNM = [] ∧
    "node_modules" ∈ IGNORE_DIRS ∧
    (workerAnalyze fsNM (some [["node_modules", "evil.ts"]]) "t").files.map
      FileInfo.path = [["node_modules", "evil.ts"]] := by
  decide

/-- C5 (amended): under full-mode collection no file record ever carries a
path with an excluded or dot-prefixed segment — the collector prunes such
entries, files and directories alike. -/
theorem c5_full_mode_exclusion (fs : FsListing) (ts : String) :
    ∀ r ∈ (workerAnalyze fs none ts).files, ∀ seg ∈ r.path,
      seg ∉ IGNORE_DIRS ∧ startsWithDot seg = false := by
  intro r hr seg hseg
  have hr' : r ∈ (collectFiles fs).filterMap (analyzeFile fs) := by
    simpa [workerAnalyze] using hr
  rw [List.mem_filterMap] at hr'
  obtain ⟨p, hp, hsome⟩ := hr'
  have hpath := analyzeFile_path hsome
  exact collectFiles_clean fs p hp seg (hpath ▸ hseg)

/-- C5 witness: the exclusion invariant applied to the `src/auth/login.ts`
record of the scenario workspace. -/
theorem c5_full_mode_exclusion_witness :
    "src" ∉ IGNORE_DIRS ∧ startsWithDot "src" = false := by
  exact c5_full_mode_exclusion fs9 "t"
    ⟨["src", "auth", "login.ts"], "typescript", "other", [], [], [], []⟩
    (by decide) "src" (by decide)

/-- C6: merging a `(type, markup, description?)` triple produces a record
whose id is the type key and whose priority comes from the fixed
by-type table; the merged list contains exactly the new record plus the
existing records of other ids, in their original relative order; ids stay
pairwise distinct; and merging a new `architecture` diagram over
`[architecture, sequence]` yields `[new architecture, sequence]` with the
`sequence` record untouched. -/
theorem c6_merge_replaces_by_id (type : DiagramType) (mermaid : String)
    (description : Option String) (ds : List DiagramRecord)
    (hids : (ds.map DiagramRecord.id).Nodup) :
    (createDiagramRecord type mermaid description).id = typeKey type ∧
    (createDiagramRecord type mermaid description).priority =
      (if type = .architecture then 95 else if type = .dataflow then 90 else 75) ∧
    (∀ d, d ∈ mergedDiagrams type mermaid description ds ↔
      (d = createDiagramRecord type mermaid description ∨
        (d ∈ ds ∧ d.id ≠ typeKey type))) ∧
    ((mergedDiagrams type mermaid description ds).filter
        (fun d => d.id ≠ typeKey type)).Sublist ds ∧
    ((mergedDiagrams type mermaid description ds).map DiagramRecord.id).Nodup ∧
    mergedDiagrams .architecture "new arch" (some "d") [archOld, seqRec] =
      [newArch, seqRec] := by
  refine ⟨rfl, rfl, ?_, ?_, ?_, by decide⟩
  · intro d
    simp only [mergedDiagrams, mergeDiagrams, List.mem_cons, List.mem_filter,
      decide_eq_true_eq]
    exact Iff.rfl
  · simp only [mergedDiagrams, mergeDiagrams]
    rw [List.filter_cons_of_neg (by simp [createDiagramRecord])]
    exact (List.filter_sublist _).trans (List.filter_sublist _)
  · simp only [mergedDiagrams, mergeDiagrams, List.map_cons, List.nodup_cons]
    constructor
    · intro hmem
      rw [List.mem_map] at hmem
      obtain ⟨d, hd, hdid⟩ := hmem
      have hne := (List.mem_filter.1 hd).2
      simp only [decide_eq_true_eq] at hne
      exact hne hdid
    · exact List.Nodup.sublist (List.Sublist.map _ (List.filter_sublist _)) hids

/-- C6 witness: the merge over `[architecture, sequence]` contains the new
`architecture` record and still contains the `sequence` record. -/
theorem c6_merge_replaces_by_id_witness :
    newArch ∈ mergedDiagrams .architecture "new arch" (some "d") [archOld, seqRec] ∧
    seqRec ∈ mergedDiagrams .architecture "new arch" (some "d") [archOld, seqRec] := by
  have h := c6_merge_replaces_by_id .architecture "new arch" (some "d")
    [archOld, seqRec] (by decide)
  exact ⟨(h.2.2.1 newArch).2 (Or.inl rfl),
         (h.2.2.1 seqRec).2 (Or.inr ⟨by decide, by decide⟩)⟩

/-- C7 counterexample: a `diagram_update` call with empty markup changes
the stored diagram set and stores a record whose markup is the empty
string — nothing is rejected at the merge boundary. -/
theorem c7_empty_markup_stored :
    (diagram_update "t1" "h1" .architecture "" none sSeq).currentDiagrams ≠
      sSeq.currentDiagrams ∧
    ∃ d ∈ ((diagram_update "t1" "h1" .architecture "" none sSeq).currentDiagrams.map
        DiagramSet.diagrams).getD [], d.mermaid = "" := by
  decide

/-- C7 (amended): the merge boundary performs no markup validation — for
every markup string, including the empty one, the record is created with
that markup verbatim, appears in the saved diagram set, and the set is
persisted as-is. -/
theorem c7_merge_accepts_any_markup (type : DiagramType) (mermaid : String)
    (description : Option String) (ts h : String) (s : PluginState) :
    (createDiagramRecord type mermaid description).mermaid = mermaid ∧
    createDiagramRecord type mermaid description ∈
      ((diagram_update ts h type mermaid description s).currentDiagrams.map
        DiagramSet.diagrams).getD [] ∧
    (diagram_update ts h type mermaid description s).diagramsFile =
      (diagram_update ts h type mermaid description s).currentDiagrams := by
  refine ⟨rfl, ?_, rfl⟩
  show createDiagramRecord type mermaid description ∈
    sortByKeyDesc (fun d => d.priority)
      (mergedDiagrams type mermaid description
        ((s.currentDiagrams.map (·.diagrams)).getD []))
  exact mem_sortByKeyDesc.2 (List.mem_cons_self _ _)

/-- C8: a worker result whose file count exceeds `MAX_FILES_LIMIT` is
rejected outright — the handler leaves the live model, the persisted
analysis and both diagram stores exactly as they were. -/
theorem c8_oversized_result_rejected (gen : AnalyzeResult → List DiagramRecord)
    (ts h : String) (s : PluginState) (analysis : AnalyzeResult)
    (hover : analysis.files.length > MAX_FILES_LIMIT) :
    handleWorkerMessage gen ts h s analysis = s := by
  simp only [handleWorkerMessage]
  rw [if_pos hover]

/-- C8 witness: a 10001-file result leaves an empty plugin state
unchanged. -/
theorem c8_oversized_result_rejected_witness :
    big10001.files.length > MAX_FILES_LIMIT ∧
    handleWorkerMessage (fun _ => []) "t" "h" s0 big10001 = s0 := by
  have hlen : big10001.files.length > MAX_FILES_LIMIT := by
    simp only [big10001]
    rw [List.length_map, List.length_range]
    decide
  exact ⟨hlen, c8_oversized_result_rejected _ _ _ _ _ hlen⟩

/-- C9 counterexample: on the scenario workspace (three files under
`src/auth/`, two under `src/users/`), domain grouping reports
`auth ↦ 3` — not `auth ↦ 2` as the claim states. -/
theorem c9_auth_count_is_three :
    (workerAnalyze fs9 none "t").domains =
      [⟨"auth", 3, "other"⟩, ⟨"users", 2, "other"⟩] ∧
    ¬ ∃ d ∈ (workerAnalyze fs9 none "t").domains,
        d.name = "auth" ∧ d.fileCount = 2 := by
  decide

/-- C9 (amended): the scenario workspace yields domains
`{auth: 3 files, users: 2 files}`; adding `src/users/delete.ts` raises
`users` to 3; and no reported domain ever has fewer than 2 member files. -/
theorem c9_domain_grouping_counts :
    (workerAnalyze fs9 none "t").domains.map (fun d => (d.name, d.fileCount)) =
      [("auth", 3), ("users", 2)] ∧
    (workerAnalyze fs9plus none "t").domains.map (fun d => (d.name, d.fileCount)) =
      [("auth", 3), ("users", 3)] ∧
    (∀ files : List FileInfo, ∀ d ∈ detectDomains files, 2 ≤ d.fileCount) :=
  ⟨by decide, by decide, detectDomains_fileCount_ge_two⟩

/-- C9 witness: the minimum-membership bound instantiated at the reported
`users` domain. -/
theorem c9_domain_grouping_counts_witness :
    2 ≤ (⟨"users", 2, "other"⟩ : DomainInfo).fileCount :=
  c9_domain_grouping_counts.2.2 (workerAnalyze fs9 none "t").files
    ⟨"users", 2, "other"⟩ (by decide)

/-- C10: the reported domain list always has at most 10 entries, is sorted
by non-increasing file count, and contains only domains with at least 2
members; with eleven qualifying domains (`dom0` of size 2 up to `dom10` of
size 12), exactly ten are reported and the smallest, `dom0`, is omitted
even though it qualifies. -/
theorem c10_domains_top_ten (files : List FileInfo) :
    (detectDomains files).length ≤ 10 ∧
    (detectDomains files).Pairwise (fun a b => b.fileCount ≤ a.fileCount) ∧
    (∀ d ∈ detectDomains files, 2 ≤ d.fileCount) ∧
    (detectDomains files11).length = 10 ∧
    "dom0" ∉ (detectDomains files11).map DomainInfo.name ∧
    2 ≤ (files11.filter (fun f => domainOf f.path = "dom0")).length := by
  have hdef : detectDomains files =
      (sortByKeyDesc (fun d => d.fileCount)
        (((files.foldl (fun m f => addToGroup (domainOf f.path) f m) []).filter
            (fun g => 2 ≤ g.2.length)).map
          (fun g => ⟨g.1, g.2.length, topLayer g.2⟩))).take 10 := rfl
  refine ⟨?_, ?_, detectDomains_fileCount_ge_two files, by decide, by decide, by decide⟩
  · rw [hdef]
    exact List.length_take_le 10 _
  · rw [hdef]
    exact List.Pairwise.sublist (List.take_sublist _ _) (pairwise_sortByKeyDesc _)

/-- C10 witness: the bound and the minimum-membership property at the
scenario workspace. -/
theorem c10_domains_top_ten_witness :
    (detectDomains (workerAnalyze fs9 none "t").files).length ≤ 10 ∧
    2 ≤ (⟨"auth", 3, "other"⟩ : DomainInfo).fileCount := by
  have h := c10_domains_top_ten (workerAnalyze fs9 none "t").files
  exact ⟨h.1, h.2.2.1 ⟨"auth", 3, "other"⟩ (by decide)⟩

end Cartograph
